import Mathlib

/-!
Verification of the content-negotiation core (`internal/decode/accept.go`) and
the API-key signing transport (`internal/web/auth/api_key.go`) of the
fahimbagar/gidari repository, as a shallow embedding in Lean.

Go strings are modelled as Lean `String` (Lean 4.14 strings are lists of
characters; every separator used by the code is a single ASCII character, so
Go's byte-wise `strings.Split` coincides with character-wise splitting).
Go `float64` values are modelled exactly: the code only ever compares parsed
quality factors (`<`, `>`), never adds them, so an exact fraction
(numerator/denominator, compared by cross multiplication) together with
explicit NaN and infinity constructors captures every observable behaviour of
`strconv.ParseFloat` results, including the IEEE rule that every ordered
comparison against NaN is false.
-/

/-! ## Go string primitives (`strings` package) -/

/-- Character-level model of Go `unicode.IsSpace`: the Unicode White_Space
property (as listed in the Go documentation for `unicode.IsSpace`). -/
def goIsSpace (c : Char) : Bool :=
  let n := c.toNat
  (n == 9) || (n == 10) || (n == 11) || (n == 12) || (n == 13) || (n == 32) ||
  (n == 0x85) || (n == 0xA0) || (n == 0x1680) ||
  (0x2000 ≤ n && n ≤ 0x200A) ||
  (n == 0x2028) || (n == 0x2029) || (n == 0x202F) || (n == 0x205F) || (n == 0x3000)

/-- Model of Go `strings.TrimSpace`: drop leading and trailing white space. -/
def goTrimSpace (s : String) : String :=
  String.mk (((s.data.dropWhile goIsSpace).reverse.dropWhile goIsSpace).reverse)

/-- Split a character list at every occurrence of `sep`.  This is Go
`strings.Split` for a one-character separator (all separators used by
`accept.go` — `","`, `";"`, `"/"`, `"="` — are single ASCII characters). -/
def splitChar (sep : Char) : List Char → List (List Char)
  | [] => [[]]
  | c :: rest =>
    let r := splitChar sep rest
    if c = sep then [] :: r
    else (c :: r.headD []) :: r.tail

/-- Model of Go `strings.Split s sep` for a one-character separator. -/
def goSplit (s : String) (sep : Char) : List String :=
  (splitChar sep s.data).map String.mk

/-- Model of Go `strings.SplitN s sep 2` for a one-character separator:
split at the first occurrence only. -/
def splitN2Chars (sep : Char) : List Char → Option (List Char × List Char)
  | [] => none
  | c :: rest =>
    if c = sep then some ([], rest)
    else match splitN2Chars sep rest with
      | none => none
      | some (l, r) => some (c :: l, r)

/-- Go `strings.SplitN(s, sep, 2)`: a one-element list when `sep` does not
occur in `s`, otherwise the part before the first `sep` and all of the rest. -/
def goSplitN2 (s : String) (sep : Char) : List String :=
  match splitN2Chars sep s.data with
  | none => [s]
  | some (l, r) => [String.mk l, String.mk r]

/-! ## Exact model of Go `float64` values produced by `strconv.ParseFloat` -/

/-- An unreduced exact fraction.  `den` is always positive for every value the
parser constructs.  The code under verification never performs arithmetic on
quality factors — it only compares them — so no normalisation is needed. -/
structure GoDec where
  num : Int
  den : Nat
deriving DecidableEq, Repr

/-- Cross-multiplication strict order on exact fractions (the usual rational
order whenever both denominators are positive). -/
def GoDec.ltb (a b : GoDec) : Bool :=
  a.num * (b.den : Int) < b.num * (a.den : Int)

/-- A Go `float64` as observed through `strconv.ParseFloat` and comparisons:
an exact finite value, NaN, or a signed infinity. -/
inductive GoFloat where
  | finite (d : GoDec)
  | nan
  | posInf
  | negInf
deriving DecidableEq, Repr

/-- IEEE-754 `<` on the modelled floats: every comparison involving NaN is
false; `-Inf < finite < +Inf`. -/
def GoFloat.ltb : GoFloat → GoFloat → Bool
  | .finite a, .finite b => a.ltb b
  | .nan, _ => false
  | _, .nan => false
  | .negInf, .negInf => false
  | .negInf, _ => true
  | _, .negInf => false
  | .posInf, _ => false
  | .finite _, .posInf => true

/-- IEEE-754 `>`: `a > b` is `b < a`. -/
def GoFloat.gtb (a b : GoFloat) : Bool := GoFloat.ltb b a

/-- The float constant `0.0`. -/
def GoFloat.zero : GoFloat := .finite ⟨0, 1⟩

/-- The float constant `1.0`. -/
def GoFloat.one : GoFloat := .finite ⟨1, 1⟩

/-- Decimal digit test (Go `'0' <= c && c <= '9'`). -/
def isDigit (c : Char) : Bool := 48 ≤ c.toNat && c.toNat ≤ 57

/-- Numeric value of a decimal digit list (most significant first). -/
def digitsVal (l : List Char) : Nat :=
  l.foldl (fun acc c => acc * 10 + (c.toNat - 48)) 0

/-- Grammar of a plain decimal accepted by `strconv.ParseFloat`:
`digits [. digits] [e|E [+|-] digits]` where at least one digit appears in the
mantissa (either side of the dot).  Returns mantissa digits, the number of
fractional digits, and the signed exponent.  Underscored and hexadecimal
literals, which Go also accepts, are not modelled; rejecting them only makes
the parse fail, which the caller treats like any other `ParseFloat` error. -/
def parseMantissaExp (l : List Char) : Option (List Char × Nat × Int) :=
  let intPart := l.takeWhile isDigit
  let rest := l.dropWhile isDigit
  let (fracPart, rest2) :=
    match rest with
    | '.' :: r => (r.takeWhile isDigit, r.dropWhile isDigit)
    | _ => ([], rest)
  if intPart.isEmpty && fracPart.isEmpty then none
  else
    let hadDot := match rest with | '.' :: _ => true | _ => false
    let restNoDot := if hadDot then rest2 else rest
    match restNoDot with
    | [] => some (intPart ++ fracPart, fracPart.length, 0)
    | e :: r =>
      if e = 'e' ∨ e = 'E' then
        let (esign, r2) : Int × List Char :=
          match r with
          | '+' :: r2 => (1, r2)
          | '-' :: r2 => (-1, r2)
          | _ => (1, r)
        let edigits := r2.takeWhile isDigit
        let r3 := r2.dropWhile isDigit
        if edigits.isEmpty ∨ ¬ r3.isEmpty then none
        else some (intPart ++ fracPart, fracPart.length, esign * (digitsVal edigits : Int))
      else none

/-- The smallest magnitude that `strconv.ParseFloat` rounds up to `+Inf`
(the midpoint between the largest finite `float64` and `2^1024`). -/
def floatOverflowBound : Nat := 2 ^ 1024 - 2 ^ 970

/-- Model of Go `strconv.ParseFloat(s, 64)`.  `none` stands for a non-nil
error (the caller, `parseAcceptHeader`, discards the returned value whenever
the error is non-nil, so the `±Inf` value Go pairs with its range error is
not observable and is collapsed into `none`).  Special values: `NaN` parses
with a nil error, as do `Inf`/`Infinity` with an optional sign (Go matches
them case-insensitively).  Finite decimals are kept exact; a magnitude at or
beyond the `float64` overflow threshold is a range error. -/
def goParseFloat (s : String) : Option GoFloat :=
  let low := String.mk (s.data.map Char.toLower)
  if low = "nan" then some .nan
  else if low = "inf" ∨ low = "+inf" ∨ low = "infinity" ∨ low = "+infinity" then some .posInf
  else if low = "-inf" ∨ low = "-infinity" then some .negInf
  else
    let neg : Bool := match s.data with | '-' :: _ => true | _ => false
    let body : List Char :=
      match s.data with
      | '+' :: r => r
      | '-' :: r => r
      | r => r
    match parseMantissaExp body with
    | none => none
    | some (mant, fracLen, exp) =>
      let m : Nat := digitsVal mant
      let nd : Nat × Nat :=
        if exp < 0 then (m, 10 ^ (fracLen + exp.natAbs))
        else (m * 10 ^ exp.natAbs, 10 ^ fracLen)
      if floatOverflowBound * nd.2 ≤ nd.1 then none
      else some (.finite ⟨if neg then -(nd.1 : Int) else (nd.1 : Int), nd.2⟩)

/-! ## The `accept` data model (`accept.go` lines 48–56) -/

/-- Model of the Go struct `accept`: one parsed media range.
`extensions` models the Go `map[string]string`: an association list with
distinct keys, written only through `insertExt`, so `extensions.length` is
Go's `len(map)`. -/
structure accept where
  typ : String
  subtype : String
  qualityFactor : GoFloat
  extensions : List (String × String)
deriving DecidableEq, Repr

instance : Inhabited accept := ⟨⟨"", "", GoFloat.one, []⟩⟩

/-- Go map assignment `m[k] = v`: overwrite the existing key in place, or
append a new binding.  Keeps keys distinct, so the list length is `len(m)`. -/
def insertExt (m : List (String × String)) (k v : String) : List (String × String) :=
  if m.any (fun p => p.1 == k) then
    m.map (fun p => if p.1 == k then (k, v) else p)
  else m ++ [(k, v)]

/-- Model of `AcceptSlice.Less` (`accept.go` lines 65–93).  Elements are
ordered by decreasing preference: higher quality factor first, then specific
type before wildcard type, then specific subtype before wildcard subtype,
then more extensions before fewer.  There is no further (positional) key. -/
def acceptLess (x y : accept) : Bool :=
  if x.qualityFactor.gtb y.qualityFactor then true
  else if x.qualityFactor.ltb y.qualityFactor then false
  else if x.typ ≠ "*" ∧ y.typ = "*" then true
  else if x.typ = "*" ∧ y.typ ≠ "*" then false
  else if x.subtype ≠ "*" ∧ y.subtype = "*" then true
  else if x.subtype = "*" ∧ y.subtype ≠ "*" then false
  else if x.extensions.length > y.extensions.length then true
  else false

/-! ## Media-range splitting (`parseMediaRange`, `accept.go` lines 102–125) -/

/-- Model of `parseMediaRange`: split the range on `";"`; split the first
piece on `"/"`.  More than two `/`-separated segments is the only error.
Otherwise a `"*"` subtype is appended, both pieces are trimmed, and an empty
trimmed piece becomes `"*"`.  Returns the parameter tokens (the pieces after
the first `";"`-piece) and the sanitised type/subtype pair.  (The Go function
returns the full `rangeParams` slice; only `rangeParams[1:]` and the pair are
read by the caller.) -/
def parseMediaRange (mediaRange : String) : Option (List String × String × String) :=
  let rangeParams := goSplit mediaRange ';'
  let typeSubtype := goSplit (rangeParams.headD "") '/'
  if typeSubtype.length > 2 then none
  else
    let ts := typeSubtype ++ ["*"]
    let t0 := goTrimSpace (ts.getD 0 "")
    let t1 := goTrimSpace (ts.getD 1 "")
    let t0 := if t0 = "" then "*" else t0
    let t1 := if t1 = "" then "*" else t1
    some (rangeParams.tail, t0, t1)

/-! ## Entry building (the loop body of `parseAcceptHeader`, lines 138–184) -/

/-- The parameter-validation loop of `parseAcceptHeader` (lines 157–179),
threading the entry being built.  `none` models `validParams = false`
(the entry is discarded; Go's `break` plus the skipped `append`).  A token
without a `"="` is invalid.  For a (trimmed) name equal to `"q"` the
(trimmed) value is parsed: a parse error or a negative value invalidates the
entry; a value greater than `1.0` is clamped to `1.0` (both comparisons are
false for NaN, which is therefore stored as-is).  Any other name/value pair
is stored as an extension. -/
def paramLoop (acc : accept) : List String → Option accept
  | [] => some acc
  | v :: rest =>
    let nameVal := goSplitN2 v '='
    if nameVal.length ≠ 2 then none
    else
      let val := goTrimSpace (nameVal.getD 1 "")
      let name := goTrimSpace (nameVal.getD 0 "")
      if name = "q" then
        match goParseFloat val with
        | none => none
        | some qval =>
          if qval.ltb GoFloat.zero then none
          else
            let qval := if qval.gtb GoFloat.one then GoFloat.one else qval
            paramLoop { acc with qualityFactor := qval } rest
      else
        paramLoop { acc with extensions := insertExt acc.extensions name val } rest

/-- One iteration of the media-range loop of `parseAcceptHeader`: parse the
range (a failed parse skips the token), build the initial entry with quality
factor `1.0` and no extensions, then run the parameter loop (a range without
parameters is emitted immediately, which the parameter loop models with an
empty list). -/
def buildEntry (mediaRange : String) : Option accept :=
  match parseMediaRange mediaRange with
  | none => none
  | some (params, t0, t1) =>
    paramLoop { typ := t0, subtype := t1, qualityFactor := GoFloat.one, extensions := [] } params

/-- The entry-collection phase of `parseAcceptHeader` (lines 135–184, before
the sort): split the header on `","` and keep the successfully built entries
in encounter order. -/
def buildEntries (mediaRanges : List String) : List accept :=
  mediaRanges.filterMap buildEntry

/-! ## Go's `sort.Sort` (the pdqsort of Go 1.19+, `sort/zsortinterface.go`)

`parseAcceptHeader` sorts with `sort.Sort`, which is documented as **not**
guaranteed to be stable.  To settle ordering claims we model the actual
algorithm: pattern-defeating quicksort as shipped in the Go standard library
since Go 1.19.  The slice is a `List α` read through `getE` and mutated only
through `swapL` (Go's `data.Less`/`data.Swap`); loops carry explicit fuel,
always supplied large enough for the loop bounds, and return the slice
unchanged when exhausted. -/

section GoSort

variable {α : Type} [Inhabited α]

/-- Read `data[i]` (every read in the algorithm is in bounds). -/
def getE (l : List α) (i : Nat) : α := l.getD i default

/-- Go `data.Swap(i, j)`; out-of-range indices leave the slice unchanged (the
algorithm never swaps out of range). -/
def swapL (l : List α) (i j : Nat) : List α :=
  if i < l.length ∧ j < l.length then (l.set i (getE l j)).set j (getE l i) else l

/-- Inner loop of `insertionSort`: sift `data[j]` left while it sorts before
its left neighbour and `j > a`. -/
def insertionInner (less : α → α → Bool) (a : Nat) : Nat → List α → List α
  | 0, l => l
  | j+1, l =>
    if a < j+1 ∧ less (getE l (j+1)) (getE l j) then
      insertionInner less a j (swapL l (j+1) j)
    else l

/-- Outer loop of `insertionSort`, `i` from `a+1` to `b-1`. -/
def insertionOuter (less : α → α → Bool) (a b : Nat) : Nat → Nat → List α → List α
  | 0, _, l => l
  | fuel+1, i, l =>
    if i < b then insertionOuter less a b fuel (i+1) (insertionInner less a i l) else l

/-- Go `insertionSort(data, a, b)`. -/
def insertionSortGo (less : α → α → Bool) (a b : Nat) (l : List α) : List α :=
  insertionOuter less a b (b - a) (a+1) l

/-- Go `siftDown(data, lo, hi, first)` (`root` is the loop variable). -/
def siftDownGo (less : α → α → Bool) (hi first : Nat) : Nat → Nat → List α → List α
  | 0, _, l => l
  | fuel+1, root, l =>
    let child := 2*root + 1
    if child ≥ hi then l
    else
      let child :=
        if child+1 < hi ∧ less (getE l (first+child)) (getE l (first+child+1)) then child+1
        else child
      if ¬ less (getE l (first+root)) (getE l (first+child)) then l
      else siftDownGo less hi first fuel child (swapL l (first+root) (first+child))

/-- First loop of `heapSort`: build the heap, `i` from `(hi-1)/2` down to 0. -/
def heapBuild (less : α → α → Bool) (hi first : Nat) : Nat → List α → List α
  | 0, l => l
  | cnt+1, l => heapBuild less hi first cnt (siftDownGo less hi first (hi+1) cnt l)

/-- Second loop of `heapSort`: pop the maximum, `i` from `hi-1` down to 0. -/
def heapPop (less : α → α → Bool) (first : Nat) : Nat → List α → List α
  | 0, l => l
  | cnt+1, l =>
    heapPop less first cnt (siftDownGo less cnt first (cnt+1) 0 (swapL l first (first + cnt)))

/-- Go `heapSort(data, a, b)`. -/
def heapSortGo (less : α → α → Bool) (a b : Nat) (l : List α) : List α :=
  let hi := b - a
  heapPop less a hi (heapBuild less hi a ((hi-1)/2 + 1) l)

/-- Loop of Go `reverseRange(data, a, b)`. -/
def reverseAux : Nat → Nat → Nat → List α → List α
  | 0, _, _, l => l
  | fuel+1, i, j, l => if i < j then reverseAux fuel (i+1) (j-1) (swapL l i j) else l

/-- Go `reverseRange(data, a, b)`: swap ends moving inwards. -/
def reverseRangeGo (a b : Nat) (l : List α) : List α := reverseAux b a (b-1) l

/-- Number of bits of `n`: Go `bits.Len(uint(n))`. -/
def bitsLenAux : Nat → Nat → Nat
  | 0, _ => 0
  | fuel+1, n => if n = 0 then 0 else bitsLenAux fuel (n / 2) + 1

/-- Go `bits.Len`. -/
def bitsLen (n : Nat) : Nat := bitsLenAux n n

/-- One step of the xorshift generator used by `breakPatterns`
(`*r ^= *r << 13; *r ^= *r >> 7; *r ^= *r << 17` on `uint64`). -/
def xorshiftNext (r : Nat) : Nat :=
  let r := (Nat.xor r ((r <<< 13) % 2^64)) % 2^64
  let r := (Nat.xor r (r >>> 7)) % 2^64
  (Nat.xor r ((r <<< 17) % 2^64)) % 2^64

/-- Reduce one xorshift output to an index as `breakPatterns` does. -/
def breakIdx (v modulus length : Nat) : Nat :=
  let o := Nat.land v (modulus - 1)
  if o ≥ length then o - length else o

/-- Go `breakPatterns(data, a, b)`: swap three elements around the middle
with pseudo-random ones (the generator is seeded with the length, so the
whole sort is deterministic). -/
def breakPatternsGo (a b : Nat) (l : List α) : List α :=
  let length := b - a
  if length ≥ 8 then
    let modulus := 1 <<< bitsLen length
    let idx := a + (length/4)*2 - 1
    let s1 := xorshiftNext (length % 2^64)
    let s2 := xorshiftNext s1
    let s3 := xorshiftNext s2
    let l := swapL l (idx-1) (a + breakIdx s1 modulus length)
    let l := swapL l idx (a + breakIdx s2 modulus length)
    swapL l (idx+1) (a + breakIdx s3 modulus length)
  else l

/-- The sortedness hint of `choosePivot`. -/
inductive SortedHint where
  | unknown
  | increasing
  | decreasing
deriving DecidableEq, Repr

/-- Go `order2(data, a, b, &swaps)`. -/
def order2Go (less : α → α → Bool) (l : List α) (a b swaps : Nat) : Nat × Nat × Nat :=
  if less (getE l b) (getE l a) then (b, a, swaps+1) else (a, b, swaps)

/-- Go `median(data, a, b, c, &swaps)`: index of the median element. -/
def medianGo (less : α → α → Bool) (l : List α) (a b c swaps : Nat) : Nat × Nat :=
  let (a, b, swaps) := order2Go less l a b swaps
  let (b, _, swaps) := order2Go less l b c swaps
  let (_, b, swaps) := order2Go less l a b swaps
  (b, swaps)

/-- Go `medianAdjacent(data, a, &swaps)`: median of `a-1`, `a`, `a+1`. -/
def medianAdjacentGo (less : α → α → Bool) (l : List α) (a swaps : Nat) : Nat × Nat :=
  medianGo less l (a-1) a (a+1) swaps

/-- Go `choosePivot(data, a, b)`: median (of medians) of fixed sample
positions; the swap count classifies the slice as increasing (0 swaps),
decreasing (12 swaps, only reachable with the ninther at length ≥ 50), or
unknown. -/
def choosePivotGo (less : α → α → Bool) (l : List α) (a b : Nat) : Nat × SortedHint :=
  let len := b - a
  let i := a + len/4*1
  let j := a + len/4*2
  let k := a + len/4*3
  let (j, swaps) :=
    if len ≥ 8 then
      if len ≥ 50 then
        let (i, s) := medianAdjacentGo less l i 0
        let (j2, s) := medianAdjacentGo less l j s
        let (k, s) := medianAdjacentGo less l k s
        medianGo less l i j2 k s
      else medianGo less l i j k 0
    else (j, 0)
  if swaps = 0 then (j, .increasing)
  else if swaps = 12 then (j, .decreasing)
  else (j, .unknown)

/-- Scan of `partialInsertionSort`: advance `i` past pairs in order. -/
def pisScan (less : α → α → Bool) (l : List α) (b : Nat) : Nat → Nat → Nat
  | 0, i => i
  | fuel+1, i =>
    if i < b ∧ ¬ less (getE l i) (getE l (i-1)) then pisScan less l b fuel (i+1) else i

/-- Left shift of `partialInsertionSort` (`j` from `i-2` down to `a`);
the first argument counts the remaining candidate positions. -/
def pisShiftLeft (less : α → α → Bool) : Nat → Nat → List α → List α
  | 0, _, l => l
  | cnt+1, j, l =>
    if less (getE l (j+1)) (getE l j) then pisShiftLeft less cnt (j-1) (swapL l (j+1) j)
    else l

/-- Right shift of `partialInsertionSort` (`j` from `i+1` up to `b-1`). -/
def pisShiftRight (less : α → α → Bool) (b : Nat) : Nat → Nat → List α → List α
  | 0, _, l => l
  | fuel+1, j, l =>
    if j < b ∧ less (getE l j) (getE l (j-1)) then pisShiftRight less b fuel (j+1) (swapL l j (j-1))
    else l

/-- Outer loop of Go `partialInsertionSort(data, a, b)`: at most 5 adjacent
out-of-order pairs are repaired; returns whether the range ended sorted.  On
ranges shorter than 50 it never mutates. -/
def pisLoop (less : α → α → Bool) (a b : Nat) : Nat → Nat → List α → Bool × List α
  | 0, _, l => (false, l)
  | steps+1, i, l =>
    let i := pisScan less l b b i
    if i = b then (true, l)
    else if b - a < 50 then (false, l)
    else
      let l := swapL l i (i-1)
      let l := if i - a ≥ 2 then pisShiftLeft less (i - a - 1) (i-2) l else l
      let l := if b - i ≥ 2 then pisShiftRight less b b (i+1) l else l
      pisLoop less a b steps i l

/-- Go `partialInsertionSort(data, a, b)`. -/
def partialInsertionSortGo (less : α → α → Bool) (a b : Nat) (l : List α) : Bool × List α :=
  pisLoop less a b 5 (a+1) l

/-- Scan of `partition`: advance `i` while `data[i]` sorts before the pivot at
`a`, within `i ≤ j`. -/
def partScanI (less : α → α → Bool) (l : List α) (a j : Nat) : Nat → Nat → Nat
  | 0, i => i
  | fuel+1, i =>
    if i ≤ j ∧ less (getE l i) (getE l a) then partScanI less l a j fuel (i+1) else i

/-- Scan of `partition`: retreat `j` while `data[j]` does not sort before the
pivot at `a`, within `i ≤ j`. -/
def partScanJ (less : α → α → Bool) (l : List α) (a i : Nat) : Nat → Nat → Nat
  | 0, j => j
  | fuel+1, j =>
    if i ≤ j ∧ ¬ less (getE l j) (getE l a) then partScanJ less l a i fuel (j-1) else j

/-- Main loop of Go `partition`: scan from both ends and swap misplaced
pairs until the pointers cross; returns the final `j`. -/
def partLoop (less : α → α → Bool) (a b : Nat) : Nat → Nat → Nat → List α → Nat × List α
  | 0, _, j, l => (j, l)
  | fuel+1, i, j, l =>
    let i := partScanI less l a j b i
    let j := partScanJ less l a i b j
    if i > j then (j, l)
    else partLoop less a b fuel (i+1) (j-1) (swapL l i j)

/-- Go `partition(data, a, b, pivot)`: move the pivot to `a`, partition the
rest, put the pivot at its final slot `j`; also reports whether the range was
already partitioned (no swap was needed). -/
def partitionGo (less : α → α → Bool) (a b pivot : Nat) (l : List α) : Nat × Bool × List α :=
  let l1 := swapL l a pivot
  let i := partScanI less l1 a (b-1) b (a+1)
  let j := partScanJ less l1 a i b (b-1)
  if i > j then (j, true, swapL l1 j a)
  else
    let r := partLoop less a b b (i+1) (j-1) (swapL l1 i j)
    (r.1, false, swapL r.2 r.1 a)

/-- Scan of `partitionEqual`: advance `i` while the pivot does not sort before
`data[i]`. -/
def peqScanI (less : α → α → Bool) (l : List α) (a j : Nat) : Nat → Nat → Nat
  | 0, i => i
  | fuel+1, i =>
    if i ≤ j ∧ ¬ less (getE l a) (getE l i) then peqScanI less l a j fuel (i+1) else i

/-- Scan of `partitionEqual`: retreat `j` while the pivot sorts before
`data[j]`. -/
def peqScanJ (less : α → α → Bool) (l : List α) (a i : Nat) : Nat → Nat → Nat
  | 0, j => j
  | fuel+1, j =>
    if i ≤ j ∧ less (getE l a) (getE l j) then peqScanJ less l a i fuel (j-1) else j

/-- Main loop of Go `partitionEqual`; returns the final `i`. -/
def peqLoop (less : α → α → Bool) (a b : Nat) : Nat → Nat → Nat → List α → Nat × List α
  | 0, i, _, l => (i, l)
  | fuel+1, i, j, l =>
    let i := peqScanI less l a j b i
    let j := peqScanJ less l a i b j
    if i > j then (i, l)
    else peqLoop less a b fuel (i+1) (j-1) (swapL l i j)

/-- Go `partitionEqual(data, a, b, pivot)`: move elements equal to the pivot
to the front of the range. -/
def partitionEqualGo (less : α → α → Bool) (a b pivot : Nat) (l : List α) : Nat × List α :=
  let l := swapL l a pivot
  peqLoop less a b b (a+1) (b-1) l

/-- The slice after the `!wasBalanced` step of the `pdqsort` loop body:
an imbalanced previous partitioning triggers `breakPatterns` (and a `limit`
decrement, see `pdqLoop`). -/
def pdqL2 (a b : Nat) (wasBalanced : Bool) (l : List α) : List α :=
  if wasBalanced then l else breakPatternsGo a b l

/-- The `choosePivot` call of the `pdqsort` loop body (on the slice after
`breakPatterns`). -/
def pdqPV (less : α → α → Bool) (a b : Nat) (wasBalanced : Bool) (l : List α) :
    Nat × SortedHint :=
  choosePivotGo less (pdqL2 a b wasBalanced l) a b

/-- The slice after the decreasing-hint step: a decreasing hint reverses the
range. -/
def pdqL3 (less : α → α → Bool) (a b : Nat) (wasBalanced : Bool) (l : List α) : List α :=
  if (pdqPV less a b wasBalanced l).2 = SortedHint.decreasing then
    reverseRangeGo a b (pdqL2 a b wasBalanced l)
  else pdqL2 a b wasBalanced l

/-- The pivot index after the decreasing-hint step (a reversed range mirrors
the pivot: `pivot = (b-1) - (pivot-a)`). -/
def pdqPivot (less : α → α → Bool) (a b : Nat) (wasBalanced : Bool) (l : List α) : Nat :=
  if (pdqPV less a b wasBalanced l).2 = SortedHint.decreasing then
    (b-1) - ((pdqPV less a b wasBalanced l).1 - a)
  else (pdqPV less a b wasBalanced l).1

/-- The hint after the decreasing-hint step (a reversed range counts as
increasing). -/
def pdqHint (less : α → α → Bool) (a b : Nat) (wasBalanced : Bool) (l : List α) : SortedHint :=
  if (pdqPV less a b wasBalanced l).2 = SortedHint.decreasing then SortedHint.increasing
  else (pdqPV less a b wasBalanced l).2

/-- The likely-sorted shortcut of the `pdqsort` loop body: when the last
partitioning was balanced and already partitioned and the hint is increasing,
try `partialInsertionSort`; otherwise keep the slice with a `false` flag. -/
def pdqPS (less : α → α → Bool) (a b : Nat) (wasBalanced wasPartitioned : Bool)
    (l : List α) : Bool × List α :=
  if wasBalanced ∧ wasPartitioned ∧ pdqHint less a b wasBalanced l = SortedHint.increasing then
    partialInsertionSortGo less a b (pdqL3 less a b wasBalanced l)
  else (false, pdqL3 less a b wasBalanced l)

/-- The main loop of Go `pdqsort(data, a, b, limit)` (the stage helpers above
model the statements of the loop body in order).  Ranges of at most 12
elements use insertion sort; `limit = 0` falls back to heap sort; a slice
that `partialInsertionSort` finished is done; an
equal-to-previous-pivot range head is skipped with `partitionEqual`
(continuing with the same flags); otherwise partition, recurse into the
shorter side (with fresh flags, as Go's locals restart `true`), and continue
on the longer side with the new balance/partition flags. -/
def pdqLoop (less : α → α → Bool) :
    Nat → Nat → Nat → Nat → Bool → Bool → List α → List α
  | 0, _, _, _, _, _, l => l
  | fuel+1, a, b, limit, wasBalanced, wasPartitioned, l =>
    if b - a ≤ 12 then insertionSortGo less a b l
    else if limit = 0 then heapSortGo less a b l
    else
      let limit2 := if wasBalanced then limit else limit - 1
      let pivot := pdqPivot less a b wasBalanced l
      let ps := pdqPS less a b wasBalanced wasPartitioned l
      if ps.1 then ps.2
      else if 0 < a ∧ ¬ less (getE ps.2 (a-1)) (getE ps.2 pivot) then
        pdqLoop less fuel (partitionEqualGo less a b pivot ps.2).1 b limit2
          wasBalanced wasPartitioned (partitionEqualGo less a b pivot ps.2).2
      else
        let pr := partitionGo less a b pivot ps.2
        let mid := pr.1
        let wasBalanced2 := min (mid - a) (b - mid) ≥ (b - a) / 8
        if mid - a < b - mid then
          pdqLoop less fuel (mid+1) b limit2 wasBalanced2 pr.2.1
            (pdqLoop less fuel a mid limit2 true true pr.2.2)
        else
          pdqLoop less fuel a mid limit2 wasBalanced2 pr.2.1
            (pdqLoop less fuel (mid+1) b limit2 true true pr.2.2)

/-- Go `sort.Sort(data)`: nothing to do for at most one element, otherwise
`pdqsort(data, 0, n, bits.Len(uint(n)))`.  The fuel `2*n + 4` dominates the
depth of the model's recursion (every nested call strictly shrinks the
range). -/
def sortGo (less : α → α → Bool) (l : List α) : List α :=
  if l.length ≤ 1 then l
  else pdqLoop less (2 * l.length + 4) 0 l.length (bitsLen l.length) true true l

end GoSort

/-! ## Header parsing and best-fit selection (`accept.go` lines 134–216) -/

/-- Model of `parseAcceptHeader` (lines 134–188): split the header on `","`,
build an entry per media range in order (dropping invalid ones), then sort
with `sort.Sort` under `AcceptSlice.Less`. -/
def parseAcceptHeader (header : String) : List accept :=
  sortGo acceptLess (buildEntries (goSplit header ','))

/-- The Go constant `decodeTypeUnknown` (the `decodeType` type is an `int`;
the constants are produced by `iota`). -/
def decodeTypeUnknown : Int := 0

/-- The Go constant `decodeTypeJSON`. -/
def decodeTypeJSON : Int := 1

/-- The `for` loop of `bestFitDecodeType` (lines 203–213) together with the
final `return decodeTypeUnknown`: the first entry that is the universal
wildcard, or whose type is `"application"` with subtype `"json"` or `"*"`,
selects JSON; a completed walk yields Unknown. -/
def bestFitWalk : List accept → Int
  | [] => decodeTypeUnknown
  | a :: rest =>
    if a.typ = "*" ∧ a.subtype = "*" then decodeTypeJSON
    else if a.typ = "application" ∧ (a.subtype = "json" ∨ a.subtype = "*") then decodeTypeJSON
    else bestFitWalk rest

/-- Model of `bestFitDecodeType` (lines 195–216): parse the header; an empty
parsed slice defaults to JSON; otherwise walk the ranked slice. -/
def bestFitDecodeType (header : String) : Int :=
  let accepted := parseAcceptHeader header
  if accepted.isEmpty then decodeTypeJSON
  else bestFitWalk accepted

/-! ## The API-key transport (`api_key.go`)

`APIKey.RoundTrip` computes a timestamp from the wall clock and a signature
from the secret (an HMAC-SHA256 over the message assembled by `generageMsg`,
base64-encoded).  Both are uninterpreted strings as far as the *request rewrite* of
lines 131–138 is concerned, so the rewrite is modelled as a function of those
two strings; the wall clock and the digest arithmetic themselves are outside
the embedding.  Go's `http.Header` is a `map[string][]string` keyed by
canonicalised header names; `Set` replaces the value list, `Add` appends to
it. -/

/-- Go `validHeaderFieldByte`: bytes allowed in a MIME header key token. -/
def isHeaderTokenChar (c : Char) : Bool :=
  let n := c.toNat
  (48 ≤ n && n ≤ 57) || (65 ≤ n && n ≤ 90) || (97 ≤ n && n ≤ 122) ||
  (c == '!') || (c == '#') || (c == '$') || (c == '%') || (c == '&') ||
  (c == '\'') || (c == '*') || (c == '+') || (c == '-') || (c == '.') ||
  (c == '^') || (c == '_') || (c == '`') || (c == '|') || (c == '~')

/-- Uppercase/lowercase folding pass of `textproto.CanonicalMIMEHeaderKey`:
uppercase the first letter and every letter following a hyphen, lowercase the
rest. -/
def canonFold : Bool → List Char → List Char
  | _, [] => []
  | upper, c :: rest =>
    let c2 := if upper then c.toUpper else c.toLower
    c2 :: canonFold (c = '-') rest

/-- Go `textproto.CanonicalMIMEHeaderKey`: canonicalise a valid key; a key
containing an invalid byte is returned unchanged. -/
def canonicalMIMEHeaderKey (s : String) : String :=
  if s.data.all isHeaderTokenChar then String.mk (canonFold true s.data) else s

/-- Go `http.Header`: an association list (canonical key, value list) with
distinct keys, modelling the Go map written only through `hSet`/`hAdd`. -/
abbrev GoHeader : Type := List (String × List String)

/-- First binding of a canonical key in the association list (the Go map
holds each canonical key once). -/
def hGetAux : GoHeader → String → List String
  | [], _ => []
  | p :: rest, ck => if p.1 == ck then p.2 else hGetAux rest ck

/-- Lookup `h[CanonicalMIMEHeaderKey(key)]` (a missing key is the empty
value list, as for a Go map read). -/
def hGet (h : GoHeader) (key : String) : List String :=
  hGetAux h (canonicalMIMEHeaderKey key)

/-- Go `Header.Set(key, value)`: `h[canonical key] = []string{value}`. -/
def hSet (h : GoHeader) (key value : String) : GoHeader :=
  let k := canonicalMIMEHeaderKey key
  if h.any (fun p => p.1 == k) then
    h.map (fun p => if p.1 == k then (k, [value]) else p)
  else h ++ [(k, [value])]

/-- Go `Header.Add(key, value)`: `h[canonical key] = append(h[canonical key], value)`. -/
def hAdd (h : GoHeader) (key value : String) : GoHeader :=
  let k := canonicalMIMEHeaderKey key
  if h.any (fun p => p.1 == k) then
    h.map (fun p => if p.1 == k then (k, p.2 ++ [value]) else p)
  else h ++ [(k, [value])]

/-- The observable parts of the `*http.Request` that `RoundTrip` receives:
method, the three URL components the code reads or writes (scheme, host, and
the remainder of the URL), headers, and the body bytes.  `parsebytes` reads
the body and puts an equal copy back, so the body is value-preserved. -/
structure GoRequest where
  method : String
  urlScheme : String
  urlHost : String
  urlRest : String
  header : GoHeader
  body : String
deriving DecidableEq

/-- Model of the request rewrite performed by `APIKey.RoundTrip`
(`api_key.go` lines 131–138) before the request is forwarded: overwrite the
URL scheme and host with the configured ones, `Set` the `content-type`
header to `application/json`, and `Add` the four `cb-access-*` headers
(key, passphrase, signature, timestamp).  `sig` and `timestamp` are the
strings computed earlier in `RoundTrip`. -/
def roundTripRewrite (authScheme authHost key passphrase sig timestamp : String)
    (req : GoRequest) : GoRequest :=
  let h := hSet req.header "content-type" "application/json"
  let h := hAdd h "cb-access-key" key
  let h := hAdd h "cb-access-passphrase" passphrase
  let h := hAdd h "cb-access-sign" sig
  let h := hAdd h "cb-access-timestamp" timestamp
  { req with urlScheme := authScheme, urlHost := authHost, header := h }

/-- Model of `generageMsg` (lines 109–113): the string that gets signed is
`timestamp + method + postAuthority + body`, where `postAuthority` is the
request URL with the configured base URL removed. -/
def generageMsg (timestamp method postAuthority body : String) : String :=
  timestamp ++ method ++ postAuthority ++ body

/-! ## Concrete inputs used by the claim theorems -/

/-- A 50-range header whose entries carry ascending quality values with one
tied pair placed first: `a/p` and `b/p` both with `q=0.01`, followed by 48
ranges `t/s` with `q=0.02` … `q=0.49`.  Fifty tied-sample positions make Go's
`choosePivot` use the ninther and classify the slice as decreasing (12
swaps), so `pdqsort` reverses the whole range and finishes via
`partialInsertionSort` — flipping the tied pair. -/
def c1Header : String :=
  "a/p;q=0.01,b/p;q=0.01,t/s;q=0.02,t/s;q=0.03,t/s;q=0.04,t/s;q=0.05," ++
  "t/s;q=0.06,t/s;q=0.07,t/s;q=0.08,t/s;q=0.09,t/s;q=0.10,t/s;q=0.11," ++
  "t/s;q=0.12,t/s;q=0.13,t/s;q=0.14,t/s;q=0.15,t/s;q=0.16,t/s;q=0.17," ++
  "t/s;q=0.18,t/s;q=0.19,t/s;q=0.20,t/s;q=0.21,t/s;q=0.22,t/s;q=0.23," ++
  "t/s;q=0.24,t/s;q=0.25,t/s;q=0.26,t/s;q=0.27,t/s;q=0.28,t/s;q=0.29," ++
  "t/s;q=0.30,t/s;q=0.31,t/s;q=0.32,t/s;q=0.33,t/s;q=0.34,t/s;q=0.35," ++
  "t/s;q=0.36,t/s;q=0.37,t/s;q=0.38,t/s;q=0.39,t/s;q=0.40,t/s;q=0.41," ++
  "t/s;q=0.42,t/s;q=0.43,t/s;q=0.44,t/s;q=0.45,t/s;q=0.46,t/s;q=0.47," ++
  "t/s;q=0.48,t/s;q=0.49"

/-- The entry built for the first range of `c1Header`. -/
def c1EntryA : accept := ⟨"a", "p", GoFloat.finite ⟨1, 100⟩, []⟩

/-- The entry built for the second range of `c1Header` (tied with the first
on every comparison key of `AcceptSlice.Less`). -/
def c1EntryB : accept := ⟨"b", "p", GoFloat.finite ⟨1, 100⟩, []⟩

/-- A concrete request for the transport claims: a plain-text `GET` over
`http` with one unrelated header. -/
def c3Req : GoRequest :=
  { method := "GET", urlScheme := "http", urlHost := "example.com",
    urlRest := "/path", header := [("Content-Type", ["text/plain"]), ("X-Other", ["v"])],
    body := "BODY" }

/-! ## The sort returns only elements it was given

Every mutation in the sort model goes through `swapL`, so membership in the
output implies membership in the input.  This is what the entry invariants
need in order to transport from the build phase through the sort. -/

section GoSortMem

variable {α : Type} [Inhabited α]

theorem getD_default_mem {l : List α} {i : Nat} (h : i < l.length) :
    l.getD i default ∈ l := by
  rw [List.getD_eq_getElem l default h]
  exact List.getElem_mem h

theorem mem_swapL {l : List α} {i j : Nat} {y : α} (h : y ∈ swapL l i j) : y ∈ l := by
  unfold swapL at h
  split at h
  · rename_i hb
    rcases List.mem_or_eq_of_mem_set h with h2 | h2
    · rcases List.mem_or_eq_of_mem_set h2 with h3 | h3
      · exact h3
      · exact h3 ▸ getD_default_mem hb.2
    · exact h2 ▸ getD_default_mem hb.1
  · exact h

theorem mem_insertionInner {less : α → α → Bool} {a : Nat} :
    ∀ {j : Nat} {l : List α} {y : α}, y ∈ insertionInner less a j l → y ∈ l := by
  intro j
  induction j with
  | zero => intro l y h; exact h
  | succ j ih =>
    intro l y h
    unfold insertionInner at h
    split at h
    · exact mem_swapL (ih h)
    · exact h

theorem mem_insertionOuter {less : α → α → Bool} {a b : Nat} :
    ∀ {fuel i : Nat} {l : List α} {y : α}, y ∈ insertionOuter less a b fuel i l → y ∈ l := by
  intro fuel
  induction fuel with
  | zero => intro i l y h; exact h
  | succ fuel ih =>
    intro i l y h
    unfold insertionOuter at h
    split at h
    · exact mem_insertionInner (ih h)
    · exact h

theorem mem_insertionSortGo {less : α → α → Bool} {a b : Nat} {l : List α} {y : α}
    (h : y ∈ insertionSortGo less a b l) : y ∈ l :=
  mem_insertionOuter h

theorem mem_siftDownGo {less : α → α → Bool} {hi first : Nat} :
    ∀ {fuel root : Nat} {l : List α} {y : α}, y ∈ siftDownGo less hi first fuel root l → y ∈ l := by
  intro fuel
  induction fuel with
  | zero => intro root l y h; exact h
  | succ fuel ih =>
    intro root l y h
    unfold siftDownGo at h
    simp only [] at h
    repeat' split at h
    all_goals first
      | exact h
      | exact mem_swapL (ih h)

theorem mem_heapBuild {less : α → α → Bool} {hi first : Nat} :
    ∀ {cnt : Nat} {l : List α} {y : α}, y ∈ heapBuild less hi first cnt l → y ∈ l := by
  intro cnt
  induction cnt with
  | zero => intro l y h; exact h
  | succ cnt ih =>
    intro l y h
    exact mem_siftDownGo (ih h)

theorem mem_heapPop {less : α → α → Bool} {first : Nat} :
    ∀ {cnt : Nat} {l : List α} {y : α}, y ∈ heapPop less first cnt l → y ∈ l := by
  intro cnt
  induction cnt with
  | zero => intro l y h; exact h
  | succ cnt ih =>
    intro l y h
    exact mem_swapL (mem_siftDownGo (ih h))

theorem mem_heapSortGo {less : α → α → Bool} {a b : Nat} {l : List α} {y : α}
    (h : y ∈ heapSortGo less a b l) : y ∈ l :=
  mem_heapBuild (mem_heapPop h)

theorem mem_reverseAux :
    ∀ {fuel i j : Nat} {l : List α} {y : α}, y ∈ reverseAux fuel i j l → y ∈ l := by
  intro fuel
  induction fuel with
  | zero => intro i j l y h; exact h
  | succ fuel ih =>
    intro i j l y h
    unfold reverseAux at h
    split at h
    · exact mem_swapL (ih h)
    · exact h

theorem mem_reverseRangeGo {a b : Nat} {l : List α} {y : α}
    (h : y ∈ reverseRangeGo a b l) : y ∈ l :=
  mem_reverseAux h

theorem mem_breakPatternsGo {a b : Nat} {l : List α} {y : α}
    (h : y ∈ breakPatternsGo a b l) : y ∈ l := by
  unfold breakPatternsGo at h
  simp only [] at h
  split at h
  · exact mem_swapL (mem_swapL (mem_swapL h))
  · exact h

theorem mem_pisShiftLeft {less : α → α → Bool} :
    ∀ {cnt j : Nat} {l : List α} {y : α}, y ∈ pisShiftLeft less cnt j l → y ∈ l := by
  intro cnt
  induction cnt with
  | zero => intro j l y h; exact h
  | succ cnt ih =>
    intro j l y h
    unfold pisShiftLeft at h
    split at h
    · exact mem_swapL (ih h)
    · exact h

theorem mem_pisShiftRight {less : α → α → Bool} {b : Nat} :
    ∀ {fuel j : Nat} {l : List α} {y : α}, y ∈ pisShiftRight less b fuel j l → y ∈ l := by
  intro fuel
  induction fuel with
  | zero => intro j l y h; exact h
  | succ fuel ih =>
    intro j l y h
    unfold pisShiftRight at h
    split at h
    · exact mem_swapL (ih h)
    · exact h

theorem mem_pisLoop {less : α → α → Bool} {a b : Nat} :
    ∀ {steps i : Nat} {l : List α} {y : α}, y ∈ (pisLoop less a b steps i l).2 → y ∈ l := by
  intro steps
  induction steps with
  | zero => intro i l y h; exact h
  | succ steps ih =>
    intro i l y h
    unfold pisLoop at h
    simp only [] at h
    repeat' split at h
    all_goals first
      | exact h
      | exact mem_swapL (ih h)
      | exact mem_swapL (mem_pisShiftLeft (ih h))
      | exact mem_swapL (mem_pisShiftRight (ih h))
      | exact mem_swapL (mem_pisShiftLeft (mem_pisShiftRight (ih h)))

theorem mem_partialInsertionSortGo {less : α → α → Bool} {a b : Nat} {l : List α} {y : α}
    (h : y ∈ (partialInsertionSortGo less a b l).2) : y ∈ l :=
  mem_pisLoop h

theorem mem_partLoop {less : α → α → Bool} {a b : Nat} :
    ∀ {fuel i j : Nat} {l : List α} {y : α}, y ∈ (partLoop less a b fuel i j l).2 → y ∈ l := by
  intro fuel
  induction fuel with
  | zero => intro i j l y h; exact h
  | succ fuel ih =>
    intro i j l y h
    unfold partLoop at h
    simp only [] at h
    split at h
    · exact h
    · exact mem_swapL (ih h)

theorem mem_partitionGo {less : α → α → Bool} {a b pivot : Nat} {l : List α} {y : α}
    (h : y ∈ (partitionGo less a b pivot l).2.2) : y ∈ l := by
  unfold partitionGo at h
  simp only [] at h
  split at h
  · exact mem_swapL (mem_swapL h)
  · exact mem_swapL (mem_swapL (mem_partLoop (mem_swapL h)))

theorem mem_peqLoop {less : α → α → Bool} {a b : Nat} :
    ∀ {fuel i j : Nat} {l : List α} {y : α}, y ∈ (peqLoop less a b fuel i j l).2 → y ∈ l := by
  intro fuel
  induction fuel with
  | zero => intro i j l y h; exact h
  | succ fuel ih =>
    intro i j l y h
    unfold peqLoop at h
    simp only [] at h
    split at h
    · exact h
    · exact mem_swapL (ih h)

theorem mem_partitionEqualGo {less : α → α → Bool} {a b pivot : Nat} {l : List α} {y : α}
    (h : y ∈ (partitionEqualGo less a b pivot l).2) : y ∈ l :=
  mem_swapL (mem_peqLoop h)

theorem mem_pdqL2 {a b : Nat} {wasBalanced : Bool} {l : List α} {y : α}
    (h : y ∈ pdqL2 a b wasBalanced l) : y ∈ l := by
  unfold pdqL2 at h
  split at h
  · exact h
  · exact mem_breakPatternsGo h

theorem mem_pdqL3 {less : α → α → Bool} {a b : Nat} {wasBalanced : Bool} {l : List α} {y : α}
    (h : y ∈ pdqL3 less a b wasBalanced l) : y ∈ l := by
  unfold pdqL3 at h
  split at h
  · exact mem_pdqL2 (mem_reverseRangeGo h)
  · exact mem_pdqL2 h

theorem mem_pdqPS {less : α → α → Bool} {a b : Nat} {wasBalanced wasPartitioned : Bool}
    {l : List α} {y : α} (h : y ∈ (pdqPS less a b wasBalanced wasPartitioned l).2) : y ∈ l := by
  unfold pdqPS at h
  split at h
  · exact mem_pdqL3 (mem_partialInsertionSortGo h)
  · exact mem_pdqL3 h

theorem mem_pdqLoop {less : α → α → Bool} :
    ∀ {fuel a b limit : Nat} {wasBalanced wasPartitioned : Bool} {l : List α} {y : α},
      y ∈ pdqLoop less fuel a b limit wasBalanced wasPartitioned l → y ∈ l := by
  intro fuel
  induction fuel with
  | zero => intro a b limit wb wp l y h; exact h
  | succ fuel ih =>
    intro a b limit wb wp l y h
    unfold pdqLoop at h
    simp only [] at h
    repeat' split at h
    all_goals first
      | exact h
      | exact mem_insertionSortGo h
      | exact mem_heapSortGo h
      | exact mem_pdqPS h
      | exact mem_pdqPS (mem_partitionEqualGo (ih h))
      | exact mem_pdqPS (mem_partitionGo (ih (ih h)))

theorem mem_sortGo {less : α → α → Bool} {l : List α} {y : α}
    (h : y ∈ sortGo less l) : y ∈ l := by
  unfold sortGo at h
  split at h
  · exact h
  · exact mem_pdqLoop h

end GoSortMem

/-! ## Entry invariants (for the data-model claims) -/

/-- The invariant the entry builder maintains for quality factors: either the
IEEE NaN that `ParseFloat` lets through the two comparisons, or an exact
finite value lying in the closed unit interval (`0 ≤ num/den ≤ 1` with a
positive denominator). -/
def qInv (q : GoFloat) : Prop :=
  q = GoFloat.nan ∨
    ∃ d : GoDec, q = GoFloat.finite d ∧ 0 < d.den ∧ 0 ≤ d.num ∧ d.num ≤ (d.den : Int)

theorem qInv_one : qInv GoFloat.one := by
  right
  exact ⟨⟨1, 1⟩, rfl, Nat.one_pos, by decide, by decide⟩

/-- Every finite value `strconv.ParseFloat` produces has a positive
denominator (a power of ten). -/
theorem goParseFloat_den_pos {s : String} {d : GoDec}
    (h : goParseFloat s = some (GoFloat.finite d)) : 0 < d.den := by
  unfold goParseFloat at h
  simp only [] at h
  repeat' split at h
  all_goals try simp at h
  all_goals subst h
  all_goals exact pow_pos (by norm_num) _

/-- Comparing a finite value against the float constant `0.0` is a sign
test on the numerator. -/
theorem ltb_finite_zero (d : GoDec) :
    (GoFloat.finite d).ltb GoFloat.zero = decide (d.num < 0) := by
  have : d.num * ((1 : Nat) : Int) = d.num := by simp
  simp [GoFloat.ltb, GoFloat.zero, GoDec.ltb, this]

/-- Comparing a finite value against the float constant `1.0` compares
numerator and denominator. -/
theorem gtb_finite_one (d : GoDec) :
    (GoFloat.finite d).gtb GoFloat.one = decide ((d.den : Int) < d.num) := by
  have h1 : ((1 : Nat) : Int) * (d.den : Int) = (d.den : Int) := by simp
  have h2 : d.num * ((1 : Nat) : Int) = d.num := by simp
  simp [GoFloat.gtb, GoFloat.ltb, GoFloat.one, GoDec.ltb, h1, h2]

/-- After the negativity check and the clamp of `parseAcceptHeader`, a parsed
quality value satisfies the quality invariant. -/
theorem qInv_after_checks {q : GoFloat} (hden : ∀ d, q = GoFloat.finite d → 0 < d.den)
    (hneg : q.ltb GoFloat.zero = false) :
    qInv (if q.gtb GoFloat.one then GoFloat.one else q) := by
  cases q with
  | nan =>
    have hc : GoFloat.gtb GoFloat.nan GoFloat.one = false := by decide
    simp [hc]
    exact Or.inl rfl
  | posInf =>
    have hc : GoFloat.gtb GoFloat.posInf GoFloat.one = true := by decide
    simp [hc]
    exact qInv_one
  | negInf => exact absurd hneg (by decide)
  | finite d =>
    have hd := hden d rfl
    rw [ltb_finite_zero] at hneg
    have hn : 0 ≤ d.num := Int.not_lt.mp (of_decide_eq_false hneg)
    rw [gtb_finite_one]
    by_cases hc : (d.den : Int) < d.num
    · simp [hc]
      exact qInv_one
    · simp [hc]
      exact Or.inr ⟨d, rfl, hd, hn, Int.not_lt.mp hc⟩

/-- The loop `paramLoop` never touches the type and subtype fields, and preserves the
quality invariant. -/
theorem paramLoop_inv :
    ∀ (params : List String) (acc e : accept), paramLoop acc params = some e →
      qInv acc.qualityFactor →
      e.typ = acc.typ ∧ e.subtype = acc.subtype ∧ qInv e.qualityFactor := by
  intro params
  induction params with
  | nil =>
    intro acc e h hq
    have : acc = e := Option.some.inj h
    subst this
    exact ⟨rfl, rfl, hq⟩
  | cons v rest ih =>
    intro acc e h hq
    unfold paramLoop at h
    simp only [] at h
    split at h
    · exact absurd h (by simp)
    · split at h
      · split at h
        · exact absurd h (by simp)
        · rename_i qval hgp
          split at h
          · exact absurd h (by simp)
          · rename_i hneg
            have hres := ih _ _ h
              (qInv_after_checks
                (fun d hd => goParseFloat_den_pos (hd ▸ hgp))
                (by simpa using hneg))
            exact hres
      · have hres := ih _ _ h hq
        exact hres

/-- Sanitisation of `parseMediaRange`: a successful parse returns a non-empty
type and a non-empty subtype (an empty trimmed piece was replaced by
`"*"`). -/
theorem parseMediaRange_nonempty {tok : String} {params : List String} {t0 t1 : String}
    (h : parseMediaRange tok = some (params, t0, t1)) : t0 ≠ "" ∧ t1 ≠ "" := by
  unfold parseMediaRange at h
  simp only [] at h
  split at h
  · exact absurd h (by simp)
  · have h0 := Option.some.inj h
    injection h0 with h1 h23
    injection h23 with h2 h3
    subst h2
    subst h3
    constructor
    · split
      · simp
      · rename_i hne; exact hne
    · split
      · simp
      · rename_i hne; exact hne

/-- Invariant of a built entry: non-empty type and subtype, and the quality
invariant. -/
theorem buildEntry_inv {tok : String} {e : accept} (h : buildEntry tok = some e) :
    e.typ ≠ "" ∧ e.subtype ≠ "" ∧ qInv e.qualityFactor := by
  unfold buildEntry at h
  rcases hpm : parseMediaRange tok with _ | ⟨params, t0, t1⟩
  · rw [hpm] at h
    exact absurd h (by simp)
  · rw [hpm] at h
    obtain ⟨ht0, ht1⟩ := parseMediaRange_nonempty hpm
    obtain ⟨he0, he1, heq⟩ := paramLoop_inv params _ e h qInv_one
    exact ⟨he0 ▸ ht0, he1 ▸ ht1, heq⟩

/-! ## Selector and isolation lemmas -/

/-- The selector walk only ever produces the two decode-type constants. -/
theorem bestFitWalk_cases :
    ∀ l : List accept, bestFitWalk l = decodeTypeJSON ∨ bestFitWalk l = decodeTypeUnknown := by
  intro l
  induction l with
  | nil => right; rfl
  | cons a rest ih =>
    unfold bestFitWalk
    split
    · left; rfl
    · split
      · left; rfl
      · exact ih

/-- A range token whose type/subtype segment has more than two `/`-separated
segments fails `parseMediaRange`. -/
theorem parseMediaRange_malformed {tok : String}
    (h : (goSplit ((goSplit tok ';').headD "") '/').length > 2) :
    parseMediaRange tok = none := by
  unfold parseMediaRange
  simp only []
  rw [if_pos h]

/-- A malformed range token builds no entry. -/
theorem buildEntry_malformed {tok : String}
    (h : (goSplit ((goSplit tok ';').headD "") '/').length > 2) :
    buildEntry tok = none := by
  unfold buildEntry
  rw [parseMediaRange_malformed h]

/-- A boolean that is not `true` is `false`. -/
theorem bool_eq_false_of_ne_true {b : Bool} (h : ¬ b = true) : b = false := by
  cases b
  · rfl
  · exact absurd rfl h

/-! ## Header-map lemmas (for the transport claims) -/

/-- Rewriting every binding of one key does not disturb the lookup of a
different key. -/
theorem hGetAux_mapKey_ne (hd : GoHeader) {ck ck' : String} (g : List String → List String)
    (hne : ck' ≠ ck) :
    hGetAux (hd.map (fun p => if p.1 == ck then (ck, g p.2) else p)) ck' = hGetAux hd ck' := by
  induction hd with
  | nil => rfl
  | cons p rest ih =>
    rw [List.map_cons]
    unfold hGetAux
    by_cases hpk : (p.1 == ck) = true
    · rw [if_pos hpk]
      have h1 : (((ck, g p.2) : String × List String).1 == ck') = false := by
        simp only [beq_eq_false_iff_ne, ne_eq]
        exact fun e => hne e.symm
      have h2 : (p.1 == ck') = false := by
        have hp : p.1 = ck := by simpa using hpk
        simp only [beq_eq_false_iff_ne, ne_eq, hp]
        exact fun e => hne e.symm
      rw [if_neg (by simp [h1]), if_neg (by simp [h2])]
      exact ih
    · rw [if_neg hpk]
      by_cases hpk' : (p.1 == ck') = true
      · rw [if_pos hpk', if_pos hpk']
      · rw [if_neg hpk', if_neg hpk']
        exact ih

/-- Appending a binding for one key does not disturb the lookup of a
different key. -/
theorem hGetAux_append_single_ne (hd : GoHeader) {ck ck' : String} (w : List String)
    (hne : ck' ≠ ck) :
    hGetAux (hd ++ [(ck, w)]) ck' = hGetAux hd ck' := by
  induction hd with
  | nil =>
    rw [List.nil_append]
    unfold hGetAux
    have h1 : (((ck, w) : String × List String).1 == ck') = false := by
      simp only [beq_eq_false_iff_ne, ne_eq]
      exact fun e => hne e.symm
    rw [if_neg (by simp [h1])]
    exact rfl
  | cons p rest ih =>
    rw [List.cons_append]
    unfold hGetAux
    by_cases hpk' : (p.1 == ck') = true
    · rw [if_pos hpk', if_pos hpk']
    · rw [if_neg hpk', if_neg hpk']
      exact ih

/-- Rewriting every binding of a key that is present transforms its looked-up
value list. -/
theorem hGetAux_mapKey_self (hd : GoHeader) {ck : String} (g : List String → List String)
    (hany : hd.any (fun p => p.1 == ck) = true) :
    hGetAux (hd.map (fun p => if p.1 == ck then (ck, g p.2) else p)) ck = g (hGetAux hd ck) := by
  induction hd with
  | nil => simp at hany
  | cons p rest ih =>
    rw [List.map_cons]
    unfold hGetAux
    by_cases hpk : (p.1 == ck) = true
    · rw [if_pos hpk]
      have h1 : (((ck, g p.2) : String × List String).1 == ck) = true := by simp
      rw [if_pos h1, if_pos hpk]
    · rw [if_neg hpk, if_neg hpk, if_neg hpk]
      have hany' : rest.any (fun p => p.1 == ck) = true := by
        rcases List.any_eq_true.mp hany with ⟨q, hq, hqk⟩
        rcases List.mem_cons.mp hq with hq1 | hq1
        · exact absurd (hq1 ▸ hqk) (by simpa using hpk)
        · exact List.any_eq_true.mpr ⟨q, hq1, hqk⟩
      exact ih hany'

/-- A key that is bound nowhere looks up to the empty list. -/
theorem hGetAux_of_any_false (hd : GoHeader) {ck : String}
    (hnone : hd.any (fun p => p.1 == ck) = false) : hGetAux hd ck = [] := by
  induction hd with
  | nil => rfl
  | cons p rest ih =>
    unfold hGetAux
    rw [List.any_cons] at hnone
    have h1 : (p.1 == ck) = false := by
      cases h : (p.1 == ck) with
      | false => rfl
      | true => rw [h] at hnone; simp at hnone
    rw [if_neg (by simp [h1])]
    exact ih (by rw [h1] at hnone; simpa using hnone)

/-- Looking up the key of a binding appended behind unrelated bindings finds
that binding. -/
theorem hGetAux_append_single_self (hd : GoHeader) {ck : String} (w : List String)
    (hnone : hd.any (fun p => p.1 == ck) = false) :
    hGetAux (hd ++ [(ck, w)]) ck = w := by
  induction hd with
  | nil =>
    rw [List.nil_append]
    unfold hGetAux
    rw [if_pos (by simp)]
  | cons p rest ih =>
    rw [List.cons_append]
    unfold hGetAux
    rw [List.any_cons] at hnone
    have h1 : (p.1 == ck) = false := by
      cases h : (p.1 == ck) with
      | false => rfl
      | true => rw [h] at hnone; simp at hnone
    rw [if_neg (by simp [h1])]
    exact ih (by rw [h1] at hnone; simpa using hnone)

/-- Go `Header.Set` leaves every other (canonical) key unchanged. -/
theorem hGet_hSet_ne {hd : GoHeader} {k k' v : String}
    (hne : canonicalMIMEHeaderKey k' ≠ canonicalMIMEHeaderKey k) :
    hGet (hSet hd k v) k' = hGet hd k' := by
  unfold hGet hSet
  simp only []
  split
  · exact hGetAux_mapKey_ne hd (fun _ => [v]) hne
  · exact hGetAux_append_single_ne hd [v] hne

/-- Go `Header.Add` leaves every other (canonical) key unchanged. -/
theorem hGet_hAdd_ne {hd : GoHeader} {k k' v : String}
    (hne : canonicalMIMEHeaderKey k' ≠ canonicalMIMEHeaderKey k) :
    hGet (hAdd hd k v) k' = hGet hd k' := by
  unfold hGet hAdd
  simp only []
  split
  · exact hGetAux_mapKey_ne hd (fun old => old ++ [v]) hne
  · exact hGetAux_append_single_ne hd [v] hne

/-- Go `Header.Add` appends the value under the (canonical) key it names. -/
theorem hGet_hAdd_self (hd : GoHeader) (k v : String) :
    hGet (hAdd hd k v) k = hGet hd k ++ [v] := by
  unfold hGet hAdd
  simp only []
  split
  · rename_i hany
    exact hGetAux_mapKey_self hd (fun old => old ++ [v]) hany
  · rename_i hany
    rw [hGetAux_append_single_self hd [v] (bool_eq_false_of_ne_true hany),
      hGetAux_of_any_false hd (bool_eq_false_of_ne_true hany)]
    rfl

/-- Go `Header.Set` replaces the value under the (canonical) key it names. -/
theorem hGet_hSet_self (hd : GoHeader) (k v : String) :
    hGet (hSet hd k v) k = [v] := by
  unfold hGet hSet
  simp only []
  split
  · rename_i hany
    exact hGetAux_mapKey_self hd (fun _ => [v]) hany
  · rename_i hany
    exact hGetAux_append_single_self hd [v] (bool_eq_false_of_ne_true hany)

/-! ## Claim theorems -/

set_option maxRecDepth 4000000

set_option maxHeartbeats 2000000

/-- C1.  The claim (and the doc comment of `parseAcceptHeader`, lines
128–131) promises that entries tied on quality factor, type specificity,
subtype specificity and extension count keep their header order.  The code
sorts with Go's `sort.Sort` — unstable, and `AcceptSlice.Less` has no
position key.  On `c1Header` the two tied entries `a/p;q=0.01` (first) and
`b/p;q=0.01` (second) come out of `parseAcceptHeader` in the opposite
order: the 50-element slice is in ascending quality order, `choosePivot`'s
ninther reports a decreasing slice, `pdqsort` reverses the whole range and
`partialInsertionSort` accepts it, so the tied pair is flipped.  This
theorem evaluates the model at that failing input. -/
theorem c1_position_tie_break_violated :
    (buildEntries (goSplit c1Header ',')).take 2 = [c1EntryA, c1EntryB] ∧
    (buildEntries (goSplit c1Header ',')).length = 50 ∧
    (parseAcceptHeader c1Header).drop 48 = [c1EntryB, c1EntryA] ∧
    c1EntryA.qualityFactor = c1EntryB.qualityFactor ∧
    ((c1EntryA.typ = "*") ↔ (c1EntryB.typ = "*")) ∧
    ((c1EntryA.subtype = "*") ↔ (c1EntryB.subtype = "*")) ∧
    c1EntryA.extensions.length = c1EntryB.extensions.length ∧
    acceptLess c1EntryA c1EntryB = false ∧ acceptLess c1EntryB c1EntryA = false ∧
    c1EntryA ≠ c1EntryB := by decide

/-- C2 counterexample.  The claim says negotiating
`"application/json;q=-1"` yields Unknown; the code yields JSON, because the
dropped entry leaves the parsed slice empty and the empty slice takes the
default-to-JSON branch of `bestFitDecodeType` (lines 199–201). -/
theorem c2_negative_q_yields_json_not_unknown :
    bestFitDecodeType "application/json;q=-1" ≠ decodeTypeUnknown := by decide

/-- C2 amended.  Negotiating `"application/json;q=-1"` drops the json entry
entirely (negative q invalidates rather than clamps to zero), so
`parseAcceptHeader` returns the empty slice — and `bestFitDecodeType`'s
empty-slice default then returns JSON, not Unknown. -/
theorem c2_negative_q_drops_entry_then_defaults :
    parseAcceptHeader "application/json;q=-1" = [] ∧
    bestFitDecodeType "application/json;q=-1" = decodeTypeJSON := by decide

/-- C4.  Selection walks the ranked slice for the first acceptable match:
for `"application/xml;q=0.9, application/json;q=0.8"` the xml entry ranks
first but matches no registered family, and the walk falls through to the
json entry, so the result is JSON. -/
theorem c4_first_acceptable_match :
    parseAcceptHeader "application/xml;q=0.9, application/json;q=0.8" =
      [⟨"application", "xml", GoFloat.finite ⟨9, 10⟩, []⟩,
        ⟨"application", "json", GoFloat.finite ⟨8, 10⟩, []⟩] ∧
    bestFitDecodeType "application/xml;q=0.9, application/json;q=0.8" = decodeTypeJSON := by
  decide

/-- C5 counterexample.  The claim attributes `negotiate("") = JSON` to the
empty-ranked-list rule, but parsing the empty header does not produce an
empty slice: splitting `""` on `","` yields one empty token, which parses to
the `*/*` wildcard entry. -/
theorem c5_empty_header_list_not_empty :
    parseAcceptHeader "" ≠ [] := by decide

/-- C5 amended.  Negotiating the empty header string returns JSON, but via
the `*/*` wildcard entry that the empty token produces — not via the
empty-ranked-list default (which is reachable only when every entry is
dropped, e.g. `"application/json;q=-1"`). -/
theorem c5_empty_header_wildcard_entry :
    parseAcceptHeader "" = [⟨"*", "*", GoFloat.one, []⟩] ∧
    bestFitDecodeType "" = decodeTypeJSON := by decide

/-- C8.  A `q` greater than `1.0` is silently clamped to `1.0` and the entry
stays valid: `"application/json;q=1.5"` parses to a single entry with
quality factor `1.0` and negotiation returns JSON. -/
theorem c8_q_above_one_clamps :
    parseAcceptHeader "application/json;q=1.5" =
      [⟨"application", "json", GoFloat.one, []⟩] ∧
    bestFitDecodeType "application/json;q=1.5" = decodeTypeJSON := by decide

/-- C10.  Matching in `bestFitDecodeType` is exact, case-sensitive string
comparison: `"Application/json"` (capital A) parses to an entry but matches
neither `"application"` nor the wildcard, so negotiation returns Unknown. -/
theorem c10_match_is_case_sensitive :
    parseAcceptHeader "Application/json" =
      [⟨"Application", "json", GoFloat.one, []⟩] ∧
    bestFitDecodeType "Application/json" = decodeTypeUnknown := by decide

/-- C9.  For every input header the negotiation function returns exactly one
of the two decode-type constants — JSON or Unknown — and, being a total
function over totally-modelled operations, never surfaces an error: every
malformed token or parameter was absorbed earlier by dropping the entry. -/
theorem c9_total_classification (header : String) :
    bestFitDecodeType header = decodeTypeJSON ∨
      bestFitDecodeType header = decodeTypeUnknown := by
  unfold bestFitDecodeType
  simp only []
  split
  · left; rfl
  · exact bestFitWalk_cases _

/-- C7.  Per-token failure isolation: a range token whose type/subtype
segment splits into more than two `/`-separated segments is skipped, and the
entries built for the remaining tokens — and hence the final sorted output —
are exactly what they would be with the malformed token absent. -/
theorem c7_malformed_token_isolation (pre post : List String) (bad : String)
    (h : (goSplit ((goSplit bad ';').headD "") '/').length > 2) :
    buildEntries (pre ++ bad :: post) = buildEntries (pre ++ post) ∧
    sortGo acceptLess (buildEntries (pre ++ bad :: post)) =
      sortGo acceptLess (buildEntries (pre ++ post)) := by
  have he : buildEntries (pre ++ bad :: post) = buildEntries (pre ++ post) := by
    unfold buildEntries
    rw [List.filterMap_append, List.filterMap_append]
    congr 1
    rw [List.filterMap_cons, buildEntry_malformed h]
  exact ⟨he, by rw [he]⟩

/-- C7 witness: the malformed token `a/b/c` between two valid tokens changes
nothing. -/
theorem c7_malformed_token_isolation_witness :
    buildEntries (["application/json"] ++ "a/b/c" :: ["text/html"]) =
      buildEntries (["application/json"] ++ ["text/html"]) :=
  (c7_malformed_token_isolation ["application/json"] ["text/html"] "a/b/c" (by decide)).1

/-- C6 counterexample.  The claim says every produced entry has a quality
factor in `[0,1]`, but `"application/json;q=nan"` produces an entry whose
quality factor is NaN: `ParseFloat` accepts `nan` with a nil error and both
the `qval < 0` and `qval > 1.0` comparisons are false for NaN. -/
theorem c6_nan_escapes_unit_interval :
    ¬ (∀ e : accept, e ∈ parseAcceptHeader "application/json;q=nan" →
        ∃ d : GoDec, e.qualityFactor = GoFloat.finite d ∧
          0 < d.den ∧ 0 ≤ d.num ∧ d.num ≤ (d.den : Int)) := by
  intro hall
  have hmem : (⟨"application", "json", GoFloat.nan, []⟩ : accept) ∈
      parseAcceptHeader "application/json;q=nan" := by decide
  obtain ⟨d, hd, _⟩ := hall _ hmem
  exact GoFloat.noConfusion hd

/-- C6 amended.  For every input header, every entry of `parseAcceptHeader`
has a non-empty type, a non-empty subtype, and a quality factor that is
either NaN (reachable only through an explicit `q=nan`-style parameter) or
an exact value in the closed interval `[0,1]`. -/
theorem c6_entry_invariant (header : String) (e : accept)
    (hmem : e ∈ parseAcceptHeader header) :
    e.typ ≠ "" ∧ e.subtype ≠ "" ∧
      (e.qualityFactor = GoFloat.nan ∨
        ∃ d : GoDec, e.qualityFactor = GoFloat.finite d ∧
          0 < d.den ∧ 0 ≤ d.num ∧ d.num ≤ (d.den : Int)) := by
  have h1 : e ∈ buildEntries (goSplit header ',') := mem_sortGo hmem
  unfold buildEntries at h1
  obtain ⟨tok, _, hbe⟩ := List.mem_filterMap.mp h1
  exact buildEntry_inv hbe

/-- C6 witness: the invariant at the entry of `"application/json"`. -/
theorem c6_entry_invariant_witness :
    (⟨"application", "json", GoFloat.one, []⟩ : accept).typ ≠ "" ∧
    (⟨"application", "json", GoFloat.one, []⟩ : accept).subtype ≠ "" ∧
    ((⟨"application", "json", GoFloat.one, []⟩ : accept).qualityFactor = GoFloat.nan ∨
      ∃ d : GoDec,
        (⟨"application", "json", GoFloat.one, []⟩ : accept).qualityFactor = GoFloat.finite d ∧
        0 < d.den ∧ 0 ≤ d.num ∧ d.num ≤ (d.den : Int)) :=
  c6_entry_invariant "application/json" ⟨"application", "json", GoFloat.one, []⟩ (by decide)

/-- C3 counterexample.  The claim says the transport forwards the request
"unchanged otherwise", but `RoundTrip` also overwrites the `content-type`
header (`Set`, line 134) and the URL scheme and host (lines 131–132): on the
concrete request `c3Req` both observably change. -/
theorem c3_request_not_unchanged :
    hGet (roundTripRewrite "https" "api.example.com" "KEY" "PASS" "SIG" "1700000000"
        c3Req).header "Content-Type" ≠ hGet c3Req.header "Content-Type" ∧
    (roundTripRewrite "https" "api.example.com" "KEY" "PASS" "SIG"
        "1700000000" c3Req).urlScheme ≠ c3Req.urlScheme := by decide

/-- C3 amended.  The rewrite of `APIKey.RoundTrip` (lines 131–138) sets the
URL scheme and host to the configured ones, sets `Content-Type` to
`application/json`, and appends the four `cb-access-*` headers — the key,
the passphrase, the signature and the timestamp; the method, body, the rest
of the URL, and every header under any other canonical key are unchanged. -/
theorem c3_rewrite_characterisation (authScheme authHost key passphrase sig timestamp : String)
    (req : GoRequest) :
    (roundTripRewrite authScheme authHost key passphrase sig timestamp req).method =
      req.method ∧
    (roundTripRewrite authScheme authHost key passphrase sig timestamp req).body = req.body ∧
    (roundTripRewrite authScheme authHost key passphrase sig timestamp req).urlRest =
      req.urlRest ∧
    (roundTripRewrite authScheme authHost key passphrase sig timestamp req).urlScheme =
      authScheme ∧
    (roundTripRewrite authScheme authHost key passphrase sig timestamp req).urlHost =
      authHost ∧
    hGet (roundTripRewrite authScheme authHost key passphrase sig timestamp req).header
      "content-type" = ["application/json"] ∧
    hGet (roundTripRewrite authScheme authHost key passphrase sig timestamp req).header
      "cb-access-key" = hGet req.header "cb-access-key" ++ [key] ∧
    hGet (roundTripRewrite authScheme authHost key passphrase sig timestamp req).header
      "cb-access-passphrase" = hGet req.header "cb-access-passphrase" ++ [passphrase] ∧
    hGet (roundTripRewrite authScheme authHost key passphrase sig timestamp req).header
      "cb-access-sign" = hGet req.header "cb-access-sign" ++ [sig] ∧
    hGet (roundTripRewrite authScheme authHost key passphrase sig timestamp req).header
      "cb-access-timestamp" = hGet req.header "cb-access-timestamp" ++ [timestamp] ∧
    (∀ k : String, canonicalMIMEHeaderKey k ≠ "Content-Type" →
      canonicalMIMEHeaderKey k ≠ "Cb-Access-Key" →
      canonicalMIMEHeaderKey k ≠ "Cb-Access-Passphrase" →
      canonicalMIMEHeaderKey k ≠ "Cb-Access-Sign" →
      canonicalMIMEHeaderKey k ≠ "Cb-Access-Timestamp" →
      hGet (roundTripRewrite authScheme authHost key passphrase sig timestamp req).header k =
        hGet req.header k) := by
  have hH : (roundTripRewrite authScheme authHost key passphrase sig timestamp req).header =
      hAdd (hAdd (hAdd (hAdd (hSet req.header "content-type" "application/json")
        "cb-access-key" key) "cb-access-passphrase" passphrase) "cb-access-sign" sig)
        "cb-access-timestamp" timestamp := rfl
  refine ⟨rfl, rfl, rfl, rfl, rfl, ?_, ?_, ?_, ?_, ?_, ?_⟩
  · rw [hH, hGet_hAdd_ne (by decide), hGet_hAdd_ne (by decide), hGet_hAdd_ne (by decide),
      hGet_hAdd_ne (by decide), hGet_hSet_self]
  · rw [hH, hGet_hAdd_ne (by decide), hGet_hAdd_ne (by decide), hGet_hAdd_ne (by decide),
      hGet_hAdd_self, hGet_hSet_ne (by decide)]
  · rw [hH, hGet_hAdd_ne (by decide), hGet_hAdd_ne (by decide), hGet_hAdd_self,
      hGet_hAdd_ne (by decide), hGet_hSet_ne (by decide)]
  · rw [hH, hGet_hAdd_ne (by decide), hGet_hAdd_self, hGet_hAdd_ne (by decide),
      hGet_hAdd_ne (by decide), hGet_hSet_ne (by decide)]
  · rw [hH, hGet_hAdd_self, hGet_hAdd_ne (by decide), hGet_hAdd_ne (by decide),
      hGet_hAdd_ne (by decide), hGet_hSet_ne (by decide)]
  · intro k hk1 hk2 hk3 hk4 hk5
    rw [hH, hGet_hAdd_ne (fun he => hk5 (he.trans (by decide))),
      hGet_hAdd_ne (fun he => hk4 (he.trans (by decide))),
      hGet_hAdd_ne (fun he => hk3 (he.trans (by decide))),
      hGet_hAdd_ne (fun he => hk2 (he.trans (by decide))),
      hGet_hSet_ne (fun he => hk1 (he.trans (by decide)))]

/-- C3 witness: on the concrete request `c3Req` the rewrite leaves the
unrelated header `X-Other` untouched. -/
theorem c3_rewrite_characterisation_witness :
    hGet (roundTripRewrite "https" "api.example.com" "KEY" "PASS" "SIG" "1700000000"
      c3Req).header "X-Other" = hGet c3Req.header "X-Other" :=
  (c3_rewrite_characterisation "https" "api.example.com" "KEY" "PASS" "SIG" "1700000000"
    c3Req).2.2.2.2.2.2.2.2.2.2 "X-Other" (by decide) (by decide) (by decide) (by decide)
    (by decide)
